import Mathlib

/- The Batteries rational-arithmetic kernels are marked irreducible, which
blocks `decide` on concrete rational computations; restore the default
transparency for them within this file. -/
attribute [local semireducible] Rat.add Rat.mul Rat.sub Rat.inv

/-!
Verification of the compute-engine core against its specification.

This file gives a shallow embedding, in Lean 4, of the parts of the
compute-engine source that the specification's claims are about:

* the boxed-expression data model (`MExpr`, a tagged tree of numbers,
  symbols and function applications, plus a separate `BE` type carrying the
  tensor variant used by the hash/equality claims);
* the canonicalisation of `Power` (`canonicalPower` from
  `library/arithmetic-power.ts`) together with the engine arithmetic
  builders it calls (`mpow` for `ce.pow`, `minv` for `ce.inv`);
* the canonicalisation of `Add` (`canonicalAdd` from
  `library/arithmetic-add.ts`);
* hold-policy processing (`shouldHold`, `holdMap` and the operand loop of
  `makeCanonicalFunction`, from `boxed-expression/boxed-function.ts`);
* threading of `threadable` heads over finite indexable collections
  (`BoxedFunction.evaluate`);
* the cost-biased acceptance function `cheapest`;
* the scope-swapping discipline of `BoxedFunction.evaluate`
  (`swapScope` from `compute-engine.ts`);
* the `BoxedTensor` class behaviour (`solve.ts` bundle);
* the univariate solver (`findUnivariateRoots`, `harmonize`,
  `UNIVARIATE_ROOTS`, `HARMONIZATION_RULES` from `solve.ts`) together with
  the engine rule-set cache (`ComputeEngine.cache`).

Machine numbers are modelled as exact rationals; bitwise hashes are
computed modulo 2^32.  Functions whose source is outside the audited tree
(the pattern matcher of `rules.ts`, the leaf hash function, a few
arithmetic helpers) are modelled from the specification and are marked
`Modelled from the spec:` in their doc comments.
-/

namespace CE

/-- The boxed-expression tree (the `BoxedExpression` variants used by the
claims about canonicalisation, evaluation and solving): machine/bignum and
rational literals are exact rationals (`num`), complex literals carry real
and imaginary rational parts (`cnum`), `nanE` is the engine's `NaN`
constant, `sym` is a symbol and `fn` a function application of a string
head to a list of operands.  Numeric infinities are outside this fragment
(no claim instance mentions them); `ComplexInfinity` is the symbol
`"ComplexInfinity"`, exactly as in the source. -/
inductive MExpr where
  | num (q : ℚ)
  | cnum (re im : ℚ)
  | nanE
  | sym (s : String)
  | fn (head : String) (ops : List MExpr)
deriving Repr

namespace MExpr

mutual

def decEq : (a b : MExpr) → Decidable (a = b)
  | num a, num b =>
      if h : a = b then isTrue (by rw [h])
      else isFalse (by intro hh; cases hh; exact h rfl)
  | num _, cnum _ _ => isFalse (by intro h; cases h)
  | num _, nanE => isFalse (by intro h; cases h)
  | num _, sym _ => isFalse (by intro h; cases h)
  | num _, fn _ _ => isFalse (by intro h; cases h)
  | cnum a b, cnum c d =>
      if h1 : a = c then
        if h2 : b = d then isTrue (by rw [h1, h2])
        else isFalse (by intro hh; cases hh; exact h2 rfl)
      else isFalse (by intro hh; cases hh; exact h1 rfl)
  | cnum _ _, num _ => isFalse (by intro h; cases h)
  | cnum _ _, nanE => isFalse (by intro h; cases h)
  | cnum _ _, sym _ => isFalse (by intro h; cases h)
  | cnum _ _, fn _ _ => isFalse (by intro h; cases h)
  | nanE, nanE => isTrue rfl
  | nanE, num _ => isFalse (by intro h; cases h)
  | nanE, cnum _ _ => isFalse (by intro h; cases h)
  | nanE, sym _ => isFalse (by intro h; cases h)
  | nanE, fn _ _ => isFalse (by intro h; cases h)
  | sym a, sym b =>
      if h : a = b then isTrue (by rw [h])
      else isFalse (by intro hh; cases hh; exact h rfl)
  | sym _, num _ => isFalse (by intro h; cases h)
  | sym _, cnum _ _ => isFalse (by intro h; cases h)
  | sym _, nanE => isFalse (by intro h; cases h)
  | sym _, fn _ _ => isFalse (by intro h; cases h)
  | fn h1 o1, fn h2 o2 =>
      if hh : h1 = h2 then
        match decEqList o1 o2 with
        | isTrue ho => isTrue (by rw [hh, ho])
        | isFalse ho => isFalse (by intro he; cases he; exact ho rfl)
      else isFalse (by intro he; cases he; exact hh rfl)
  | fn _ _, num _ => isFalse (by intro h; cases h)
  | fn _ _, cnum _ _ => isFalse (by intro h; cases h)
  | fn _ _, nanE => isFalse (by intro h; cases h)
  | fn _ _, sym _ => isFalse (by intro h; cases h)

def decEqList : (as bs : List MExpr) → Decidable (as = bs)
  | [], [] => isTrue rfl
  | [], _ :: _ => isFalse (by intro h; cases h)
  | _ :: _, [] => isFalse (by intro h; cases h)
  | a :: as, b :: bs =>
      match decEq a b, decEqList as bs with
      | isTrue h1, isTrue h2 => isTrue (by rw [h1, h2])
      | isFalse h1, _ => isFalse (by intro hh; cases hh; exact h1 rfl)
      | _, isFalse h2 => isFalse (by intro hh; cases hh; exact h2 rfl)

end

instance : DecidableEq MExpr := decEq

end MExpr

/-- The numeric payload of a boxed expression (`expr.numericValue` in the
source): a rational (covering the machine, bignum and rational variants),
a complex literal, or the engine's `NaN`. -/
inductive MNumVal where
  | rat (q : ℚ)
  | cplx (re im : ℚ)
  | nanV
deriving DecidableEq, Repr

/-- Source `expr.numericValue`: the kernel-native number of a numeric leaf, or
`none` for symbols and function applications. -/
def numericValueM : MExpr → Option MNumVal
  | .num q => some (.rat q)
  | .cnum re im => some (.cplx re im)
  | .nanE => some .nanV
  | .sym _ => none
  | .fn _ _ => none

/-- Source `expr.symbol`: the name of a symbol leaf, `none` otherwise. -/
def symbolM : MExpr → Option String
  | .sym s => some s
  | _ => none

/-- Source `expr.head` as a string: the head of a function application, or the
synthesised head of a literal (`"Number"`, `"Symbol"`). -/
def headM : MExpr → String
  | .num _ => "Number"
  | .cnum _ _ => "Number"
  | .nanE => "Number"
  | .sym _ => "Symbol"
  | .fn h _ => h

/-- Source `expr.ops`: the operand list of a function application (empty for
leaves). -/
def opsM : MExpr → List MExpr
  | .fn _ ops => ops
  | _ => []

/-- Source `expr.op1` (the engine returns the `Nothing` symbol when the operand
is absent). -/
def op1M (e : MExpr) : MExpr := (opsM e).headD (.sym "Nothing")

/-- Source `expr.op2` (the engine returns the `Nothing` symbol when the operand
is absent). -/
def op2M (e : MExpr) : MExpr := ((opsM e).drop 1).headD (.sym "Nothing")

/-- Source `asFloat`: the rational value of a real numeric leaf (`none` for
complex numbers, `NaN` and non-numeric expressions).  Machine floats are
modelled exactly as rationals. -/
def asFloatM : MExpr → Option ℚ
  | .num q => some q
  | _ => none

/-- Source `asSmallInteger`: the integer value of an integer literal, `none`
otherwise (the source's `MAX_SAFE_INTEGER` bound is outside this exact
fragment). -/
def asSmallIntegerM (e : MExpr) : Option ℤ :=
  match e with
  | .num q => if q.den = 1 then some q.num else none
  | _ => none

/-- Source `asRational`: the rational value of a real numeric leaf. -/
def asRationalM : MExpr → Option ℚ
  | .num q => some q
  | _ => none

/-- Source `expr.isZero` with JavaScript truthiness folded in: `true` exactly
when the engine's `isZero` is `true` (an `undefined` sign query is falsy
in every guard that uses it). -/
def isZeroJS : MExpr → Bool
  | .num q => q = 0
  | .cnum re im => re = 0 && im = 0
  | _ => false

/-- Source `expr.isOne` as a truthy guard. -/
def isOneJS : MExpr → Bool
  | .num q => q = 1
  | _ => false

/-- Source `expr.isNegativeOne` as a truthy guard. -/
def isNegOneJS : MExpr → Bool
  | .num q => q = -1
  | _ => false

/-- Source `expr.isPositive` as a truthy guard (`undefined` for non-real
expressions, hence falsy). -/
def isPositiveJS : MExpr → Bool
  | .num q => 0 < q
  | _ => false

/-- Source `expr.isNegative` as a truthy guard. -/
def isNegativeJS : MExpr → Bool
  | .num q => q < 0
  | _ => false

/-- Source `expr.isInfinity` as a truthy guard; numeric infinities lie outside
this exact-rational fragment, so no expression of the model is an
infinity. -/
def isInfinityJS : MExpr → Bool
  | _ => false

/-- Source `expr.isReal` as a truthy guard: real numeric leaves are real; for
symbols and compound expressions the domain query is not decided in this
fragment and the guard is falsy. -/
def isRealJS : MExpr → Bool
  | .num _ => true
  | _ => false

/-- Source `expr.isNonNegative` as a truthy guard. -/
def isNonNegativeJS : MExpr → Bool
  | .num q => 0 ≤ q
  | _ => false

mutual

/-- Source `expr.has(x)`: does the expression contain the symbol or head `x`
(from `BoxedFunction.has` / `BoxedSymbol.has`)? -/
def hasM (e : MExpr) (x : String) : Bool :=
  match e with
  | .sym s => s = x
  | .fn h ops => h = x || hasListM ops x
  | _ => false

/-- Source `has` over an operand list (the source's `for (const arg of ops)`
loop). -/
def hasListM (es : List MExpr) (x : String) : Bool :=
  match es with
  | [] => false
  | e :: rest => hasM e x || hasListM rest x

end

/-- The engine constant `ce.One`. -/
def ceOne : MExpr := .num 1

/-- The engine constant `ce.Zero`. -/
def ceZero : MExpr := .num 0

/-- The engine constant `ce.Half`. -/
def ceHalf : MExpr := .num (1 / 2)

/-- The engine constant `ce.NegativeOne`. -/
def ceNegativeOne : MExpr := .num (-1)

/-- The engine constant `ce.NaN`. -/
def ceNaN : MExpr := .nanE

/-- The engine constant `ce.ComplexInfinity` (a symbol, as in the source's
`exponent.symbol === 'ComplexInfinity'` test). -/
def ceComplexInfinity : MExpr := .sym "ComplexInfinity"

/-- The engine constant `ce.I`. -/
def ceI : MExpr := .cnum 0 1

/-- Source `ce.number` applied to a rational pair `[n, d]`.  The rational
normalisation (`boxNumber`) is not under the audited tree; Modelled from
the spec: per the spec's numeric error convention an undefined value
(zero denominator) maps to `NaN`. -/
def mnumber (n d : ℤ) : MExpr :=
  if d = 0 then ceNaN else .num ((n : ℚ) / (d : ℚ))

/-- Source `factorPower(n, k)` from `numerics/numeric.ts` (not under the audited
tree; Modelled from the spec's `√(12) → 2√3` factoring): the largest `f`
with `f^k` dividing `n`, paired with the residual `n / f^k`. -/
def factorPower (n : ℕ) (k : ℕ) : ℕ × ℕ :=
  let f := (List.range (n + 1)).foldl
    (fun acc a => if 0 < a ∧ a ^ k ∣ n then max acc a else acc) 1
  (f, n / f ^ k)

/-- Modelled from the spec: `canonicalNegate` (in `symbolic/negate.ts`,
not under the audited tree): literal numbers are negated in place, a
`Negate` wrapper is cancelled (involution, spec §4.3), anything else is
wrapped in `Negate`. -/
def canonicalNegate : MExpr → MExpr
  | .num q => .num (-q)
  | .cnum re im => .cnum (-re) (-im)
  | .fn "Negate" (x :: _) => x
  | e => .fn "Negate" [e]

/-- Modelled from the spec: `ce.mul` (`canonicalMultiply` in
`arithmetic-multiply.ts`, not under the audited tree).  In this
development it is only reached with flat factor lists; per spec §4.3 unit
factors are dropped and a single remaining factor is unwrapped. -/
def mmul (ops : List MExpr) : MExpr :=
  match ops.filter (fun x => !isOneJS x) with
  | [] => ceOne
  | [x] => x
  | xs => .fn "Multiply" xs

/-- Source `ce.inv` from `compute-engine.ts` (lines 1838–1873).  In the exact
fragment the machine-integer and rational numeric variants coincide, so
the two reciprocal branches merge into `mnumber r.den r.num`. -/
def minv (expr : MExpr) : MExpr :=
  if isOneJS expr then ceOne
  else if isNegOneJS expr then ceNegativeOne
  else if isInfinityJS expr then ceZero
  else
    match expr with
    | .num r => mnumber r.den r.num
    | .cnum re im => .fn "Divide" [ceOne, .cnum re im]
    | .nanE => .fn "Divide" [ceOne, .nanE]
    | .fn "Sqrt" (o1 :: _) => .fn "Sqrt" [minv o1]
    | .fn "Divide" (o1 :: o2 :: _) => .fn "Divide" [o1, o2]
    | .fn "Power" (o1 :: o2 :: _) =>
        -- Inverse(x^{-1}) -> x; Inverse(x^n) -> x^{-n}
        if isNegOneJS o2 then o1
        else
          let e := canonicalNegate o2
          if isNegOneJS e then .fn "Divide" [ceOne, o1]
          else .fn "Power" [o1, e]
    | e => .fn "Divide" [ceOne, e]

/-- The square-root branch of `canonicalPower` (lines 69–92 of
`arithmetic-power.ts`): the exponent is `±1/2` and both base and exponent
are numeric literals. -/
def sqrtCase (base : MExpr) (e : ℚ) : MExpr :=
  match asSmallIntegerM base with
  | some b =>
      if 0 < b then
        -- Factor out small integers: √(12) -> 2√3
        let fr := factorPower b.toNat 2
        if fr.2 = 1 ∧ fr.1 = 1 then ceOne
        else if fr.1 ≠ 1 then
          if fr.2 = 1 then (if 0 ≤ e then mnumber fr.1 1 else mnumber 1 fr.1)
          else mmul [.num (fr.1 : ℚ), .fn "Sqrt" [.num (fr.2 : ℚ)]]
        else if 0 < e then .fn "Sqrt" [base]
        else minv (.fn "Sqrt" [base])
      else if 0 < e then .fn "Power" [base, ceHalf]
      else .fn "Power" [base, .num (-(1 / 2))]
  | none =>
      if 0 < e then .fn "Power" [base, ceHalf]
      else .fn "Power" [base, .num (-(1 / 2))]

/-- The numeric-literal section of `canonicalPower` (lines 48–115);
`none` models control falling through to the power rule.  The
`base.isInfinity` / `exponent.isInfinity` special cases (lines 94–113)
are vacuous in the exact fragment, which has no numeric infinities. -/
def canonicalPowerNumeric (base exponent : MExpr) : Option MExpr :=
  if (numericValueM exponent).isSome ∧ (numericValueM base).isSome then
    let numBase := asFloatM base
    if numBase = some 1 then some ceOne
    else if numBase = some 0 ∧ isPositiveJS exponent then some ceZero
    else if numBase = some 0 ∧ isNegativeJS exponent then some ceComplexInfinity
    else if isNegOneJS exponent then some (minv base)  -- line 67; unreachable
    else
      let e := asFloatM exponent
      if e = some (1 / 2) ∨ e = some (-(1 / 2)) then some (sqrtCase base (e.getD 0))
      else if isInfinityJS base then none
      else if isInfinityJS exponent ∧ (isOneJS base ∨ isNegOneJS base) then some ceNaN
      else none
  else none

mutual

/-- Source `canonicalPower` from `library/arithmetic-power.ts` (lines 34–149):
the canonical form of `Power(base, exponent)`. -/
def canonicalPower (base exponent : MExpr) : MExpr :=
  if symbolM exponent = some "ComplexInfinity" then ceNaN
  else if isZeroJS exponent then ceOne
  else if isOneJS exponent then base
  else if isNegOneJS exponent then minv base
  else
    match canonicalPowerNumeric base exponent with
    | some r => r
    | none => canonicalPowerTail base exponent
termination_by sizeOf base * 4 + 2
decreasing_by
  all_goals omega

/-- The power-rule and distribution section of `canonicalPower`
(lines 117–148): `(x^a)^b → x^(a·b)` for real `x`, and distribution of
integer exponents over `Multiply`, else the default `Power` node. -/
def canonicalPowerTail (base exponent : MExpr) : MExpr :=
  match base with
  | .fn "Power" (b1 :: brest) =>
      if isRealJS b1 then
        match asSmallIntegerM exponent, asSmallIntegerM (brest.headD (.sym "Nothing")) with
        | some a, some b => mpow b1 (.num ((a * b : ℤ) : ℚ))
        | _, _ =>
            if isNonNegativeJS b1 then
              match asRationalM exponent, asRationalM (brest.headD (.sym "Nothing")) with
              | some ar, some br => mpow b1 (.num (ar * br))
              | _, _ => .fn "Power" [base, exponent]
            else .fn "Power" [base, exponent]
      else .fn "Power" [base, exponent]
  | .fn "Multiply" ops =>
      -- (abc)^n -> a^n b^n c^n  (don't call ce.mul, to avoid infinite loops)
      match asSmallIntegerM exponent with
      | some _ => .fn "Multiply" (ops.attach.map (fun x => mpow x.1 exponent))
      | none => .fn "Power" [base, exponent]
  | _ => .fn "Power" [base, exponent]
termination_by sizeOf base * 4 + 1
decreasing_by
  all_goals first
    | omega
    | (simp only [MExpr.fn.sizeOf_spec, List.cons.sizeOf_spec]; omega)
    | (have h := List.sizeOf_lt_of_mem x.2; omega)
    | (have h := List.sizeOf_lt_of_mem x.2
       simp only [MExpr.fn.sizeOf_spec, List.cons.sizeOf_spec]; omega)

/-- Source `ce.pow` from `compute-engine.ts` (lines 1773–1831).  The raw
`Complex`-exponent fast path concerns unboxed arguments that cannot arise
in this development, and in the exact fragment the machine and rational
numeric variants coincide. -/
def mpow (base exponent : MExpr) : MExpr :=
  match numericValueM exponent with
  | some (.rat q) =>
      if q = 0 then ceOne
      else if q = 1 then base
      else if q = -1 then
        match numericValueM base with
        | some (.rat r) => mnumber r.den r.num
        | _ => canonicalPower base exponent
      else canonicalPower base exponent
  | _ => canonicalPower base exponent
termination_by sizeOf base * 4 + 3
decreasing_by
  all_goals omega

end

/-- Modelled from the spec: `getImaginaryCoef` (in
`boxed-expression/utils.ts`, not under the audited tree): the coefficient
`b` of a purely imaginary expression (`Complex(0, b)`, `b·i`, or `i`
itself), and `0` otherwise. -/
def getImaginaryCoef : MExpr → ℚ
  | .cnum re im => if re = 0 then im else 0
  | .sym s => if s = "ImaginaryUnit" then 1 else 0
  | .fn "Multiply" [.num b, .sym s] => if s = "ImaginaryUnit" then b else 0
  | _ => 0

/-- Modelled from the spec: `isIndexableCollection` (in
`collection-utils.ts`, not under the audited tree); per the glossary an
indexable collection is a `List`, `Range` or `Set`. -/
def isIndexableCollection : MExpr → Bool
  | .fn h _ => h = "List" || h = "Range" || h = "Set"
  | _ => false

/-- Modelled from the spec: `isFiniteIndexableCollection` (in
`collection-utils.ts`, not under the audited tree); in this fragment the
finite indexable collections are the literal `List`s. -/
def isFiniteIndexableCollection : MExpr → Bool
  | .fn "List" _ => true
  | _ => false

/-- Source `canonicalAdd` from `library/arithmetic-add.ts` (lines 2374–2409 of
the bundle): remove literal zeroes, capture complex literals `a + b·i` /
`b·i + a`, unwrap a single non-collection operand, sort.  The commutative
sort (`sortAdd`, in `boxed-expression/order.ts`, outside the audited
tree) is a parameter. -/
def canonicalAdd (sortAdd : List MExpr → List MExpr) (ops : List MExpr) : MExpr :=
  -- Remove literal 0
  let ops := ops.filter (fun x => numericValueM x = none || !isZeroJS x)
  if ops.length = 0 then ceZero
  else if h1 : ops.length = 1 ∧ ¬ isIndexableCollection (ops.headD ceZero) then
    ops.headD ceZero
  else
    -- Is this a complex number, i.e. `a + ib` or `ai + b`?
    let pairResult : Option MExpr :=
      if ops.length = 2 then
        let o0 := ops.headD ceZero
        let o1 := (ops.drop 1).headD ceZero
        let re := asFloatM o0
        if re ≠ none ∧ re ≠ some 0 then
          let im := getImaginaryCoef o1
          if im ≠ 0 then some (.cnum (re.getD 0) im) else none
        else
          let im := getImaginaryCoef o0
          let re2 := if im ≠ 0 ∧ (numericValueM o1).isSome then asFloatM o1 else re
          if re2 ≠ none ∧ im ≠ 0 then some (.cnum (re2.getD 0) im) else none
      else none
    match pairResult with
    | some r => r
    | none =>
        -- Commutative, sort
        .fn "Add" (if ops.length > 1 then sortAdd ops else ops)

/-- The `hold` policy of a function definition (`Hold` in `public.ts`). -/
inductive Hold where
  | all
  | none
  | first
  | rest
  | last
  | most
deriving DecidableEq, Repr

/-- Source `shouldHold` from `boxed-expression/boxed-function.ts` (lines
1060–1078): is operand `index` (of `count + 1` operands) shielded from
processing under the given policy? -/
def shouldHold (skip : Hold) (count : ℕ) (index : ℕ) : Bool :=
  match skip with
  | .all => true
  | .none => false
  | .first => index = 0
  | .rest => index ≠ 0
  | .last => index = count
  | .most => index ≠ count

/-- Modelled from the spec: `flattenOps` (in `symbolic/flatten.ts`, not
under the audited tree); per spec §4.3 invariant 2 a child bearing the
associative head is replaced by its operands.  The empty head (used for
non-associative functions) leaves the list unchanged. -/
def flattenOps (xs : List MExpr) (head : String) : List MExpr :=
  if head = "" then xs
  else xs.flatMap (fun x =>
    match x with
    | .fn h ops => if h = head then ops else [x]
    | _ => [x])

/-- Source `holdMap` from `boxed-expression/boxed-function.ts` (lines
1959–2008): apply `f` to the operands selected by the hold policy,
accounting for `Hold` and `ReleaseHold` wrappers; `f` returning `none`
(the source's `null`) drops the element. -/
def holdMap (xs : List MExpr) (skip : Hold) (associativeHead : String)
    (f : MExpr → Option MExpr) : List MExpr :=
  match xs with
  | [] => []
  | _ =>
    let xs := flattenOps xs associativeHead
    -- @fastpath
    if skip = .all then xs
    else if skip = .none then
      flattenOps (xs.flatMap (fun x =>
        if headM x = "Hold" then [x]
        else
          let op := if headM x = "ReleaseHold" then op1M x else x
          match f op with
          | some y => [y]
          | Option.none => [])) associativeHead
    else
      flattenOps ((List.range xs.length).flatMap (fun i =>
        let xi := xs.getD i (.sym "Nothing")
        if headM xi = "Hold" then [xi]
        else if headM xi = "ReleaseHold" then
          match f (op1M xi) with
          | some y => [y]
          | Option.none => []
        else if !shouldHold skip (xs.length - 1) i then
          match f xi with
          | some y => [y]
          | Option.none => []
        else [xi])) associativeHead

/-- The operand-processing loop of `makeCanonicalFunction`
(`boxed-expression/boxed-function.ts` lines 1873–1883): positions not
held by the policy are boxed canonically (`boxC` models `ce.box`); held
positions are boxed non-canonically (the identity on an already-boxed
expression), except that a held `ReleaseHold` child is replaced by its
canonicalised first operand. -/
def canonicalOperandsLoop (boxC : MExpr → MExpr) (hold : Hold)
    (ops : List MExpr) : List MExpr :=
  (List.range ops.length).map (fun i =>
    let op := ops.getD i (.sym "Nothing")
    if !shouldHold hold (ops.length - 1) i then boxC op
    else if headM op = "ReleaseHold" then boxC (op1M op)
    else op)

/-- Source `x.functionDefinition?.size?.(x) ?? 0` as used by the threading step
of `BoxedFunction.evaluate`: the length of a literal `List`, `0` for
anything without a `size` handler. -/
def sizeM : MExpr → ℕ
  | .fn "List" xs => xs.length
  | _ => 0

/-- Modelled from the spec: `at(x, i)` (in `collection-utils.ts`, not
under the audited tree): 1-based element access into an indexable
collection, `none` out of range. -/
def atM (x : MExpr) (i : ℕ) : Option MExpr :=
  match x with
  | .fn "List" xs =>
      if 1 ≤ i ∧ i ≤ xs.length then some (xs.getD (i - 1) (.sym "Nothing")) else none
  | _ => none

/-- The argument tuple formed by the threading loop of
`BoxedFunction.evaluate` (lines 1710–1714) at iteration `i`: collection
operands are indexed at `(i % length) + 1` (falling back to `Nothing` out
of range), scalar operands broadcast. -/
def threadArgs (ops : List MExpr) (L i : ℕ) : List MExpr :=
  ops.map (fun x =>
    if isFiniteIndexableCollection x then (atM x ((i % L) + 1)).getD (.sym "Nothing")
    else x)

/-- The threading step of `BoxedFunction.evaluate`
(`boxed-expression/boxed-function.ts` lines 1697–1721), for a `threadable`
head with at least one finite indexable collection operand.  The
recursive `this.engine._fn(this.head, args).evaluate(options)` is the
parameter `ev`. -/
def threadEvaluate (ev : String → List MExpr → MExpr) (head : String)
    (ops : List MExpr) : MExpr :=
  -- Get the length of the longest sequence
  let L := (ops.map sizeM).foldl max 0
  -- Zip
  let results := (List.range L).map (fun i => ev head (threadArgs ops L i))
  if results.length = 0 then .fn "Sequence" []
  else if results.length = 1 then results.headD (.fn "Sequence" [])
  else .fn "List" results

/-- Source `cheapest` from `boxed-expression/boxed-function.ts` (lines
2025–2046): keep the new expression iff its cost is within 20% above the
old one's.  The engine's configurable `ce.costFunction` is the parameter
`cost`; the source's literal `1.2` is the exact `6/5` (costs are exact in
this fragment). -/
def cheapest (cost : MExpr → ℚ) (oldExpr : MExpr) (newExpr : Option MExpr) : MExpr :=
  match newExpr with
  | none => oldExpr
  | some n =>
      if oldExpr = n then oldExpr
      else if cost n ≤ 6 / 5 * cost oldExpr then n
      else oldExpr

/-- The engine's mutable scope state (`engine.context`), with a
`RuntimeScope` modelled by its identity. -/
structure EngineState where
  context : ℕ
deriving DecidableEq, Repr

/-- Source `ComputeEngine.swapScope` from `compute-engine.ts` (lines 1040–1045):
set the current scope and return the previous one. -/
def swapScope (st : EngineState) (scope : ℕ) : ℕ × EngineState :=
  (st.context, { context := scope })

/-- Step 6 of `BoxedFunction.evaluate`
(`boxed-expression/boxed-function.ts` lines 1748–1755): swap to the
expression's lexical scope, run the registered `N`/`evaluate` handler,
swap back.  A handler may raise out-of-band (`timeout`,
`internal-error`); exceptions are modelled with `Except`, and the engine
state rides on both arms because a JavaScript exception does not roll
back the mutable engine.  As in the source, there is no `try`/`finally`
around the handler call. -/
def evaluateHandlerStep (st : EngineState) (exprScope : ℕ)
    (handler : EngineState → Except (String × EngineState) (MExpr × EngineState)) :
    Except (String × EngineState) (MExpr × EngineState) :=
  let p := swapScope st exprScope
  match handler p.2 with
  | .ok (r, st2) => .ok (r, (swapScope st2 p.1).2)
  | .error e => .error e

/-- Modelled from the spec: `hashCode` (in `boxed-expression/utils.ts`,
not under the audited tree): a 32-bit string content hash.  The spec only
requires a deterministic content hash (§3, "name-based for symbols"); the
concrete polynomial accumulator below fixes one. -/
def hashCode (s : String) : ℕ :=
  s.data.foldl (fun h c => (31 * h + c.toNat) % 4294967296) 0

/-- Modelled from the spec: the content hash of a numeric literal (the
`BoxedNumber.hash` accessor is not under the audited tree). -/
def hashNum (q : ℚ) : ℕ :=
  (hashCode "Number" + 31 * q.num.natAbs + q.den) % 4294967296

/-- The boxed-expression variants for the structural-equality and hash
claims: number, symbol, string and function application as in `MExpr`,
plus `tens`, a `BoxedTensor` whose tensor form is materialised (a rank-1
tensor of expression datatype, holding its data vector). -/
inductive BE where
  | num (q : ℚ)
  | symb (s : String)
  | str (s : String)
  | func (head : String) (ops : List BE)
  | tens (data : List BE)
deriving Repr

mutual

/-- Source `isSame` (structural equality) across the boxed variants:

* `BoxedTensor.isSame` (solve.ts bundle lines 569–575): two tensors
  compare with `tensor.equals` (same data; `AbstractTensor.equals` is not
  under the audited tree and is Modelled from the spec as shape/data
  equality, here on the rank-1 fragment); against a non-tensor the tensor
  compares via its expression view, the `List` function of its data
  (`this.expression.isSame(rhs)`, unfolded one step);
* `BoxedFunction.isSame` (boxed-function.ts lines 1403–1429): the right
  side must itself be a `BoxedFunction` — a tensor on the right compares
  unequal — then heads, operand counts and operands pairwise;
* number/symbol/string leaves compare by value (their `isSame`
  accessors are outside the audited tree; Modelled from the spec's
  "structural equality"). -/
def isSameBE : BE → BE → Bool
  | .tens d1, .tens d2 => isSameListBE d1 d2
  | .tens d1, .func h2 o2 => ("List" == h2) && isSameListBE d1 o2
  | .tens _, _ => false
  | .func h1 o1, .func h2 o2 => (h1 == h2) && isSameListBE o1 o2
  | .func _ _, _ => false
  | .num a, .num b => a == b
  | .num _, _ => false
  | .symb a, .symb b => a == b
  | .symb _, _ => false
  | .str a, .str b => a == b
  | .str _, _ => false

def isSameListBE : List BE → List BE → Bool
  | [], [] => true
  | a :: as, b :: bs => isSameBE a b && isSameListBE as bs
  | _, _ => false

end

mutual

/-- The content hash of a boxed expression:

* `BoxedFunction.hash` (boxed-function.ts lines 1228–1238): fold
  `h = ((h << 1) ^ op.hash) | 0` over the operands, then xor the head's
  hash (32-bit arithmetic, modelled modulo `2^32`);
* `BoxedTensor.hash` (solve.ts bundle lines 470–474): the constant
  `hashCode('BoxedTensor')` — the content loop is commented out in the
  source;
* leaves hash by content (`hashCode` / `hashNum`). -/
def hashBE : BE → ℕ
  | .num q => hashNum q
  | .symb s => hashCode s
  | .str s => hashCode s
  | .func h ops => Nat.xor (hashOpsBE 0 ops) (hashCode h) % 4294967296
  | .tens _ => hashCode "BoxedTensor"

/-- The operand fold of `BoxedFunction.hash`:
`for (const op of ops) h = ((h << 1) ^ op.hash) | 0`. -/
def hashOpsBE (h : ℕ) : List BE → ℕ
  | [] => h
  | op :: rest => hashOpsBE (Nat.xor (h * 2 % 4294967296) (hashBE op) % 4294967296) rest

end

/-- The data of a materialised `AbstractTensor` (rank-1 fragment). -/
structure MTensorData where
  shape : List ℕ
  data : List BE
deriving Repr

/-- The `BoxedTensor` class state (solve.ts bundle lines 399–432): the
lazily materialised tensor (`_tensor`), and the expression-side fields
(`_head`, `_ops`) used when the tensor is absent. -/
structure BoxedTensorM where
  tensorF : Option MTensorData
  headF : String
  opsF : List BE

/-- The result of an evaluation pass on a `BoxedTensor`: the receiver
itself (`return this`), or delegation to the expression view. -/
inductive TensorPassResult where
  | self
  | delegated (e : BE)
deriving Repr

/-- Source `BoxedTensor.expression` for the un-materialised case:
`ce._fn(this._head, this._ops)`. -/
def BoxedTensorM.expressionView (t : BoxedTensorM) : BE :=
  .func t.headF t.opsF

/-- Source `BoxedTensor.evaluate` (solve.ts bundle lines 593–596): `if
(this._tensor) return this; return this.expression.evaluate(options)`. -/
def BoxedTensorM.evaluateT (t : BoxedTensorM) (evalExpr : BE → BE) : TensorPassResult :=
  match t.tensorF with
  | some _ => .self
  | none => .delegated (evalExpr t.expressionView)

/-- Source `BoxedTensor.simplify` (lines 598–601). -/
def BoxedTensorM.simplifyT (t : BoxedTensorM) (simplifyExpr : BE → BE) : TensorPassResult :=
  match t.tensorF with
  | some _ => .self
  | none => .delegated (simplifyExpr t.expressionView)

/-- Source `BoxedTensor.N` (lines 603–606). -/
def BoxedTensorM.nT (t : BoxedTensorM) (nExpr : BE → BE) : TensorPassResult :=
  match t.tensorF with
  | some _ => .self
  | none => .delegated (nExpr t.expressionView)

/-- Source `BoxedTensor.isCanonical` (lines 480–483): `if (this._tensor) return
true; return this.expression.isCanonical` (the expression-side query is a
parameter). -/
def BoxedTensorM.isCanonicalT (t : BoxedTensorM) (exprCanonical : BE → Bool) : Bool :=
  match t.tensorF with
  | some _ => true
  | none => exprCanonical t.expressionView

/-- Source `BoxedTensor.isPure` (lines 489–492). -/
def BoxedTensorM.isPureT (t : BoxedTensorM) (exprPure : BE → Bool) : Bool :=
  match t.tensorF with
  | some _ => true
  | none => exprPure t.expressionView

/-- Source `BoxedTensor.isValid` (lines 494–497). -/
def BoxedTensorM.isValidT (t : BoxedTensorM) (exprValid : BE → Bool) : Bool :=
  match t.tensorF with
  | some _ => true
  | none => exprValid t.expressionView

/-- A capture-variable binding map (spec §4.4: "an insertion-ordered map
from capture names to boxed subjects"). -/
abbrev Subst := List (String × MExpr)

/-- Look a capture up in a binding map. -/
def substLookup (s : Subst) (n : String) : Option MExpr := s.lookup n

/-- The condition literals appearing in the solver's rule conditions
(each source condition is a conjunction of these):

* `notHasX c` — `!c.has('_x')`;
* `hasX c` — `c.has('_x')`;
* `notZero c` — `!c.isZero` with JavaScript truthiness (an `undefined`
  `isZero` negates to `true`);
* `divNeg c a` — `ce.div(c, a).isNegative` coerced with `?? false`: true
  exactly when both captures are rational literals, `a` is non-zero and
  `c/a` is negative (`canonicalDivide` is outside the audited tree;
  Modelled from the spec for the rational case). -/
inductive CLit where
  | notHasX (c : String)
  | hasX (c : String)
  | notZero (c : String)
  | divNeg (c a : String)
deriving DecidableEq, Repr

/-- Evaluate one condition literal against a binding map. -/
def evalCLit (σ : Subst) : CLit → Bool
  | .notHasX c => !(hasM ((substLookup σ c).getD (.sym "Nothing")) "_x")
  | .hasX c => hasM ((substLookup σ c).getD (.sym "Nothing")) "_x"
  | .notZero c => !(isZeroJS ((substLookup σ c).getD (.sym "Nothing")))
  | .divNeg c a =>
      match asRationalM ((substLookup σ c).getD (.sym "Nothing")),
            asRationalM ((substLookup σ a).getD (.sym "Nothing")) with
      | some qc, some qa => decide (qa ≠ 0) && decide (qc / qa < 0)
      | _, _ => false

/-- Evaluate a rule condition (a conjunction of literals; the empty list
is the absent condition). -/
def evalCond (cond : List CLit) (σ : Subst) : Bool :=
  cond.all (evalCLit σ)

/-- A rewrite rule `{ match, replace, condition?, id? }` (spec §4.6);
patterns are expressions whose underscore-prefixed symbols are capture
variables. -/
structure MRule where
  pattern : MExpr
  replacement : MExpr
  cond : List CLit
  idR : Option String
deriving DecidableEq, Repr

/-- Source `UNIVARIATE_ROOTS` from `solve.ts` (lines 21–168), the root rule set,
in source order (the commented-out rules of the source are omitted here
as there).  The second rule's `Infinity` replacement is the engine's
positive-infinity constant, modelled by its symbol. -/
def UNIVARIATE_ROOTS : List MRule := [
  -- ax = 0
  ⟨.fn "Multiply" [.sym "_x", .sym "__a"], .num 0,
    [.notHasX "__a"], some "ax"⟩,
  -- a/x + b = 0
  ⟨.fn "Add" [.fn "Divide" [.sym "_a", .sym "_x"], .sym "__b"],
    .sym "PositiveInfinity",
    [.notHasX "_a", .notHasX "__b"], none⟩,
  -- ax + b = 0
  ⟨.fn "Add" [.fn "Multiply" [.sym "_x", .sym "__a"], .sym "__b"],
    .fn "Divide" [.fn "Negate" [.sym "__b"], .sym "__a"],
    [.notHasX "__a", .notHasX "__b"], none⟩,
  -- ax^n + b = 0
  ⟨.fn "Add" [.fn "Multiply" [.sym "_a", .fn "Power" [.sym "_x", .sym "_n"]], .sym "__b"],
    .fn "Divide" [.fn "Power" [.fn "Negate" [.sym "__b"], .fn "Divide" [.num 1, .sym "_n"]], .sym "_a"],
    [.notHasX "_a", .notHasX "__b", .notZero "_n"], none⟩,
  -- Quadratic formula, + branch
  ⟨.fn "Add" [.fn "Multiply" [.sym "__a", .fn "Power" [.sym "_x", .num 2]],
              .fn "Multiply" [.sym "__b", .sym "_x"], .sym "__c"],
    .fn "Divide"
      [.fn "Add" [.fn "Negate" [.sym "__b"],
        .fn "Sqrt" [.fn "Subtract" [.fn "Square" [.sym "__b"],
          .fn "Multiply" [.num 4, .sym "__a", .sym "__c"]]]],
       .fn "Multiply" [.num 2, .sym "__a"]],
    [.notHasX "__a", .notHasX "__b", .notHasX "__c"], none⟩,
  -- Quadratic formula, - branch
  ⟨.fn "Add" [.fn "Multiply" [.sym "__a", .fn "Power" [.sym "_x", .num 2]],
              .fn "Multiply" [.sym "__b", .sym "_x"], .sym "__c"],
    .fn "Divide"
      [.fn "Subtract" [.fn "Negate" [.sym "__b"],
        .fn "Sqrt" [.fn "Subtract" [.fn "Square" [.sym "__b"],
          .fn "Multiply" [.num 4, .sym "__a", .sym "__c"]]]],
       .fn "Multiply" [.num 2, .sym "__a"]],
    [.notHasX "__a", .notHasX "__b", .notHasX "__c"], none⟩,
  -- a * e^(bx) + c = 0
  ⟨.fn "Add" [.fn "Multiply" [.sym "__a", .fn "Exp" [.fn "Multiply" [.sym "__b", .sym "_x"]]], .sym "__c"],
    .fn "Divide" [.fn "Ln" [.fn "Negate" [.fn "Divide" [.sym "__c", .sym "__a"]]], .sym "__b"],
    [.notZero "__a", .divNeg "__c" "__a", .notHasX "__a", .notHasX "__c"], none⟩,
  -- a * e^(x) + c = 0
  ⟨.fn "Add" [.fn "Multiply" [.sym "__a", .fn "Exp" [.sym "_x"]], .sym "__c"],
    .fn "Ln" [.fn "Negate" [.fn "Divide" [.sym "__c", .sym "__a"]]],
    [.notZero "__a", .divNeg "__c" "__a", .notHasX "__a", .notHasX "__c"], none⟩]

/-- Source `HARMONIZATION_RULES` from `solve.ts` (lines 262–348), in source
order (including the source's verbatim `_a`/`__a` capture-name mismatches
in the replacements of the √ and `e^a·e^b` rules). -/
def HARMONIZATION_RULES : List MRule := [
  -- |ax + b| + c -> ax+b+c
  ⟨.fn "Add" [.fn "Abs" [.fn "Add" [.fn "Multiply" [.sym "__a", .sym "_x"], .sym "__b"]], .sym "__c"],
    .fn "Add" [.fn "Multiply" [.sym "__a", .sym "_x"], .sym "__b", .sym "__c"], [], none⟩,
  -- |ax + b| + c -> -ax-b+c
  ⟨.fn "Add" [.fn "Abs" [.fn "Add" [.fn "Multiply" [.sym "__a", .sym "_x"], .sym "__b"]], .sym "__c"],
    .fn "Add" [.fn "Negate" [.fn "Multiply" [.sym "__a", .sym "_x"]], .fn "Negate" [.sym "__b"], .sym "__c"],
    [], none⟩,
  -- a(b^n) -> a
  ⟨.fn "Multiply" [.sym "__a", .fn "Power" [.sym "_b", .sym "_n"]], .sym "_b",
    [.notHasX "__a", .hasX "_b", .notZero "_n"], none⟩,
  -- a√b(x) -> a^2 b(x)
  ⟨.fn "Multiply" [.sym "__a", .fn "Sqrt" [.sym "_b"]],
    .fn "Multiply" [.fn "Square" [.sym "_a"], .sym "__b"], [.hasX "_b"], none⟩,
  -- a(x)/b -> a(x)
  ⟨.fn "Divide" [.sym "_a", .sym "_b"], .sym "_a", [.hasX "_a", .notZero "_b"], none⟩,
  -- ab(x) -> b(x)
  ⟨.fn "Multiply" [.sym "__a", .sym "_b"], .sym "_b", [.notHasX "__a", .hasX "_b"], none⟩,
  -- ln(a(x))+ln(b(x))+c -> ln(a(x)b(x)) + c
  ⟨.fn "Add" [.fn "Ln" [.sym "_a"], .fn "Ln" [.sym "_b"], .sym "__c"],
    .fn "Add" [.fn "Ln" [.fn "Multiply" [.sym "_a", .sym "_b"]], .sym "__c"], [], none⟩,
  -- e^a * e^b -> e^(a+b)
  ⟨.fn "Multiply" [.fn "Exp" [.sym "__a"], .fn "Exp" [.sym "__b"], .sym "__c"],
    .fn "Multiply" [.fn "Exp" [.fn "Add" [.sym "_a", .sym "_b"]], .sym "__c"], [], none⟩,
  -- ln(f(x)) -> f(x) - 1
  ⟨.fn "Ln" [.sym "_a"], .fn "Subtract" [.sym "_a", .num 1], [.hasX "_a"], none⟩,
  -- sin(f(x)) -> f(x)
  ⟨.fn "Sin" [.sym "_a"], .sym "_a", [.hasX "_a"], none⟩,
  -- cos(f(x)) -> f(x) - pi/2
  ⟨.fn "Cos" [.sym "_a"], .fn "Subtract" [.sym "_a", .fn "Divide" [.sym "Pi", .num 2]],
    [.hasX "_a"], none⟩,
  -- tan(f(x)) -> f(x)
  ⟨.fn "Tan" [.sym "_a"], .sym "_a", [.hasX "_a"], none⟩,
  -- sin(a) + cos(a) -> 1
  ⟨.fn "Add" [.fn "Sin" [.sym "_a"], .fn "Cos" [.sym "_a"]], .num 1, [.hasX "_a"], none⟩,
  -- sin^2(a) - cos^2(a) -> sin(x) +/- sqrt(2)/2
  ⟨.fn "Subtract" [.fn "Square" [.fn "Sin" [.sym "_a"]], .fn "Square" [.fn "Cos" [.sym "_a"]]],
    .fn "PlusMinus" [.fn "Sin" [.sym "_a"], .fn "Divide" [.fn "Sqrt" [.num 2], .num 2]],
    [.hasX "_a"], none⟩]

/-- The engine's rule-set cache (`engine._cache`), keyed by name. -/
structure RuleCache where
  entries : List (String × List MRule)
deriving DecidableEq, Repr

/-- Source `ComputeEngine.cache` from `compute-engine.ts` (lines 1576–1588): if
no entry with this name exists, build and store one; return the stored
value. -/
def cacheGet (c : RuleCache) (cacheName : String) (build : Unit → List MRule) :
    List MRule × RuleCache :=
  match c.entries.lookup cacheName with
  | some v => (v, c)
  | none =>
      let v := build ()
      (v, ⟨(cacheName, v) :: c.entries⟩)

/-- Is a pattern symbol a capture variable (leading underscore, spec
§4.4)? -/
def isWildcard (s : String) : Bool :=
  match s.data with
  | c :: _ => c = '_'
  | [] => false

mutual

/-- Modelled from the spec: the structural pattern matcher of `rules.ts`
(`matchRules`/`boxRules` are not under the audited tree), per spec §4.4:
leaves match by value; a capture variable binds its subject, later
occurrences must bind an `isSame`-equal subject; function heads and
operand counts must match and operands match positionally, unifying
captures left to right. -/
def matchPattern (pattern subject : MExpr) (σ : Subst) : Option Subst :=
  match pattern with
  | .sym s =>
      if isWildcard s then
        match substLookup σ s with
        | some prev => if prev = subject then some σ else none
        | none => some ((s, subject) :: σ)
      else
        match subject with
        | .sym t => if s = t then some σ else none
        | _ => none
  | .num q =>
      match subject with
      | .num r => if q = r then some σ else none
      | _ => none
  | .fn h pops =>
      match subject with
      | .fn h2 sops =>
          if h = h2 ∧ pops.length = sops.length then matchOps pops sops σ else none
      | _ => none
  | p => if p = subject then some σ else none

/-- Match operand lists positionally, threading the binding map. -/
def matchOps (ps ss : List MExpr) (σ : Subst) : Option Subst :=
  match ps, ss with
  | [], [] => some σ
  | p :: ps, s :: ss =>
      match matchPattern p s σ with
      | some σ2 => matchOps ps ss σ2
      | none => none
  | _, _ => none

end

mutual

/-- Substitute the bound captures of a binding map into a replacement
pattern (spec §4.6: "substituting captures into replace"). -/
def instantiate (replacement : MExpr) (σ : Subst) : MExpr :=
  match replacement with
  | .sym s => if isWildcard s then (substLookup σ s).getD (.sym s) else .sym s
  | .fn h ops => .fn h (instantiateList ops σ)
  | e => e

/-- Source `instantiate` over an operand list. -/
def instantiateList (ops : List MExpr) (σ : Subst) : List MExpr :=
  match ops with
  | [] => []
  | op :: rest => instantiate op σ :: instantiateList rest σ

end

/-- Modelled from the spec: `matchRules` of `rules.ts` (spec §4.6):
apply each rule of the set in order; every successful, condition-passing
match contributes the instantiated replacement.  (The solver immediately
maps `evaluate` over these results; the intermediate canonicalisation of
a fully instantiated replacement is subsumed by that evaluation.) -/
def matchRules (expr : MExpr) (rules : List MRule) (σ0 : Subst) : List MExpr :=
  rules.flatMap (fun r =>
    match matchPattern r.pattern expr σ0 with
    | some σ => if evalCond r.cond σ then [instantiate r.replacement σ] else []
    | none => [])

/-- Collect the rational values of a list of evaluated operands. -/
def allRationals : List MExpr → Option (List ℚ)
  | [] => some []
  | .num q :: rest => (allRationals rest).map (q :: ·)
  | _ => none

/-- An integer square-root by bounded search (reduction-friendly stand-in
for `Nat.sqrt`). -/
def natSqrtE (n : ℕ) : ℕ :=
  (List.range (n + 1)).foldl (fun acc a => if a * a ≤ n then max acc a else acc) 0

/-- The rational square root, when exact. -/
def ratSqrt (q : ℚ) : Option ℚ :=
  let rn := natSqrtE q.num.natAbs
  let rd := natSqrtE q.den
  if 0 ≤ q.num ∧ (rn : ℤ) ^ 2 = q.num ∧ rd ^ 2 = q.den then some ((rn : ℚ) / (rd : ℚ))
  else none

mutual

/-- Modelled from the spec: the evaluation pass restricted to exact
rational arithmetic (the arithmetic `evaluate` handlers of the function
library are outside the audited tree).  Children are evaluated first;
a head whose evaluated operands are rational literals of the right arity
folds to its value (`Sqrt` only when exact); anything else reconstructs
the node with evaluated children, as the evaluator's fallback does. -/
def mevaluate : MExpr → MExpr
  | .fn h ops =>
      let vs := mevaluateList ops
      match allRationals vs with
      | some qs =>
          if h = "Add" then .num (qs.foldl (· + ·) 0)
          else if h = "Multiply" then .num (qs.foldl (· * ·) 1)
          else if h = "Subtract" ∧ qs.length = 2 then
            .num (qs.headD 0 - (qs.drop 1).headD 0)
          else if h = "Negate" ∧ qs.length = 1 then .num (-(qs.headD 0))
          else if h = "Square" ∧ qs.length = 1 then .num ((qs.headD 0) ^ 2)
          else if h = "Divide" ∧ qs.length = 2 ∧ (qs.drop 1).headD 0 ≠ 0 then
            .num (qs.headD 0 / (qs.drop 1).headD 0)
          else if h = "Sqrt" ∧ qs.length = 1 then
            match ratSqrt (qs.headD 0) with
            | some r => .num r
            | none => .fn h vs
          else .fn h vs
      | none => .fn h vs
  | e => e

/-- Source `evaluate` over an operand list. -/
def mevaluateList : List MExpr → List MExpr
  | [] => []
  | e :: rest => mevaluate e :: mevaluateList rest

end

mutual

/-- Source `expr.subs({ [x]: rep }, { canonical: false })` for a single
symbol-for-symbol substitution: replace every occurrence of the symbol
`x` by the symbol `rep`, leaving the structure otherwise untouched. -/
def subsVar (e : MExpr) (x rep : String) : MExpr :=
  match e with
  | .sym s => if s = x then .sym rep else .sym s
  | .fn h ops => .fn h (subsVarList ops x rep)
  | e => e

/-- Source `subs` over an operand list. -/
def subsVarList (ops : List MExpr) (x rep : String) : List MExpr :=
  match ops with
  | [] => []
  | op :: rest => subsVar op x rep :: subsVarList rest x rep

end

/-- Modelled from the spec: `expand` (in `symbolic/expand.ts`, not under
the audited tree), spec §4.7 "best-effort distribution".  No expansion is
available in this fragment, matching `expand` returning `null`. -/
def mexpand : MExpr → Option MExpr
  | _ => none

/-- Modelled from the spec: the `Equal` branch of `findUnivariateRoots`
(line 183), `ce.add([op1.canonical, ce.neg(op2.canonical)]).simplify()`,
as the evaluated difference of the two sides. -/
def msimplifyDiff (e : MExpr) : MExpr :=
  mevaluate (.fn "Add" [op1M e, canonicalNegate (op2M e)])

/-- Source `harmonize` from `solve.ts` (lines 350–361): fetch the rule set from
the engine cache — under the key `"univariate-roots-rules"`, exactly as
in the source — and collect the rewrites of `matchRules` with the
placeholder binding `{ _x: ce.symbol('_x') }`. -/
def harmonize (c : RuleCache) (expr : MExpr) : List MExpr × RuleCache :=
  let rc := cacheGet c "univariate-roots-rules" (fun _ => HARMONIZATION_RULES)
  (matchRules expr rc.1 [("_x", .sym "_x")], rc.2)

/-- Source `exprs.flatMap((expr) => harmonize(expr))`, threading the engine
cache. -/
def harmonizeFlat (c : RuleCache) (exprs : List MExpr) : List MExpr × RuleCache :=
  exprs.foldl (fun acc e =>
    let r := harmonize acc.2 e
    (acc.1 ++ r.1, r.2)) ([], c)

/-- Source `findUnivariateRoots` from `solve.ts` (lines 176–225), threading the
engine's rule-set cache:

1. an `Equal` expression becomes the simplified difference of its sides;
2. the root rule set is fetched under the cache key
   `"univariate-roots-rules"`;
3. the unknown is substituted by the placeholder `_x` (non-canonical);
4. the root rules are matched with `_x` pre-bound to the placeholder;
5. if no result, the expressions are harmonised and matching retried —
   with the binding `{ _x: ce.symbol(x) }`, the original unknown, as in
   the source (line 210);
6. if still none, the harmonised forms are expanded, harmonised and
   matched once more;
7. every candidate is evaluated. -/
def findUnivariateRoots (c : RuleCache) (expr : MExpr) (x : String) :
    List MExpr × RuleCache :=
  let expr := if headM expr = "Equal" then msimplifyDiff expr else expr
  let rc := cacheGet c "univariate-roots-rules" (fun _ => UNIVARIATE_ROOTS)
  let rules := rc.1
  let c1 := rc.2
  let exprs1 := [subsVar expr x "_x"]
  let result1 := exprs1.flatMap (fun e => matchRules e rules [("_x", .sym "_x")])
  if result1.length ≠ 0 then (result1.map mevaluate, c1)
  else
    let h2 := harmonizeFlat c1 exprs1
    let exprs2 := h2.1
    let c2 := h2.2
    let result2 := exprs2.flatMap (fun e => matchRules e rules [("_x", .sym x)])
    if result2.length ≠ 0 then (result2.map mevaluate, c2)
    else
      let exprs3 := exprs2.flatMap (fun e => (mexpand e).toList)
      let h3 := harmonizeFlat c2 exprs3
      let exprs4 := h3.1
      let c3 := h3.2
      let result3 := exprs4.flatMap (fun e => matchRules e rules [("_x", .sym x)])
      (result3.map mevaluate, c3)

/-! ## Claim inputs -/

/-- The equation of the quadratic solve scenario, `2x² + 6x + 4` (to be
solved against `0`), in the engine's canonical operand order (numeric
factors first inside `Multiply`, terms by decreasing degree inside `Add`,
as the `solve.test.ts` snapshots show). -/
def quadraticInput : MExpr :=
  .fn "Add" [.fn "Multiply" [.num 2, .fn "Power" [.sym "x", .num 2]],
             .fn "Multiply" [.num 6, .sym "x"], .num 4]

/-- Source `|2x + 1| + 3`: an expression no root rule matches directly, which
therefore reaches the solver's harmonisation retry. -/
def absEquationInput : MExpr :=
  .fn "Add" [.fn "Abs" [.fn "Add" [.fn "Multiply" [.num 2, .sym "x"], .num 1]], .num 3]

/-! ## Theorems for the claims -/

/-- Claim C1: (code bug) The claim says the solver's retry applies the
harmonisation rule set.  But `harmonize` fetches its rules under the same
cache key, `"univariate-roots-rules"`, that `findUnivariateRoots` has
already populated with the boxed `UNIVARIATE_ROOTS` — and the engine
cache returns the stored value.  So `harmonize` matches the root rules
(a second time) and `HARMONIZATION_RULES` is never applied: here, after
the root-rule fetch, the harmonisation fetch still yields
`UNIVARIATE_ROOTS`, the two rule sets differ, and on the failing input
`|2x+1| + 3` the harmonisation step of `findUnivariateRoots` yields
nothing even though `HARMONIZATION_RULES` would have rewritten it. -/
theorem harmonize_cache_collision :
    (cacheGet
        (cacheGet (⟨[]⟩ : RuleCache) "univariate-roots-rules"
          (fun _ => UNIVARIATE_ROOTS)).2
        "univariate-roots-rules" (fun _ => HARMONIZATION_RULES)).1
      = UNIVARIATE_ROOTS
    ∧ UNIVARIATE_ROOTS ≠ HARMONIZATION_RULES
    ∧ (harmonize (findUnivariateRoots ⟨[]⟩ absEquationInput "x").2
        (subsVar absEquationInput "x" "_x")).1 = []
    ∧ matchRules (subsVar absEquationInput "x" "_x") HARMONIZATION_RULES
        [("_x", .sym "_x")] ≠ [] := by
  refine ⟨by decide, by decide, by decide, by decide⟩

/-- Claim C2: (code bug) The hash law `isSame(a, b) ⇒ hash(a) = hash(b)`
fails across the tensor/function variants: a materialised one-element
tensor is `isSame` to the `List` function expression it mirrors (the
tensor compares through its expression view), but `BoxedTensor.hash` is
the content-independent constant `hashCode('BoxedTensor')` while the
`List` function hashes its head and operands. -/
theorem tensor_hash_not_stable :
    isSameBE (.tens [.symb "a"]) (.func "List" [.symb "a"]) = true
    ∧ hashBE (.tens [.symb "a"]) ≠ hashBE (.func "List" [.symb "a"]) := by
  refine ⟨by decide, by decide⟩

/-- Claim C3 counterexample: The claim's "for every exponent expression
`e`, the canonical form of `Power(1, e)` is the number 1" fails at
`e = Sin(x)`: the base-one rule of `canonicalPower` only fires inside the
numeric-literal section, so a non-numeric exponent leaves the `Power`
node intact (exactly what the `1^{\sin(x)}` regression test records). -/
theorem canonicalPower_one_sin_counterexample :
    canonicalPower (.num 1) (.fn "Sin" [.sym "x"])
      = .fn "Power" [.num 1, .fn "Sin" [.sym "x"]]
    ∧ canonicalPower (.num 1) (.fn "Sin" [.sym "x"]) ≠ .num 1 := by
  have h : canonicalPower (.num 1) (.fn "Sin" [.sym "x"])
      = .fn "Power" [.num 1, .fn "Sin" [.sym "x"]] := by
    rw [canonicalPower]
    simp [symbolM, isZeroJS, isOneJS, isNegOneJS, numericValueM,
          canonicalPowerNumeric, canonicalPowerTail]
  exact ⟨h, by rw [h]; decide⟩

/-- Claim C4 counterexample: The claim says an operand whose head is
`ReleaseHold` is always processed, with the wrapper stripped, regardless
of policy.  Under the policy `all`, `holdMap` returns the (flattened)
operand list untouched — the `ReleaseHold` operand is neither processed
nor stripped. -/
theorem holdMap_all_ignores_releaseHold :
    holdMap [.fn "ReleaseHold" [.sym "a"]] Hold.all "" (fun _ => some (.sym "b"))
      = [.fn "ReleaseHold" [.sym "a"]]
    ∧ holdMap [.fn "ReleaseHold" [.sym "a"]] Hold.all "" (fun _ => some (.sym "b"))
      ≠ [.sym "b"] := by
  refine ⟨by decide, by decide⟩

/-- Claim C8: Solving `2x² + 6x + 4 = 0` for `x`: both quadratic branches
of the root rule set match the substituted expression (and no other rule
does), and evaluating the two instantiated replacements
`(−b ± √(b²−4ac))/(2a)` yields exactly the roots `−1` and `−2`. -/
theorem solve_quadratic_roots :
    (findUnivariateRoots ⟨[]⟩ quadraticInput "x").1 = [.num (-1), .num (-2)]
    ∧ (matchRules (subsVar quadraticInput "x" "_x") UNIVARIATE_ROOTS
        [("_x", .sym "_x")]).length = 2 := by
  refine ⟨by decide, by decide⟩

/-- Claim C9: (code bug) The handler call of `BoxedFunction.evaluate` swaps
to the expression's lexical scope and swaps back only on the normal
return path — there is no `try`/`finally`.  When the handler raises (for
example `timeout`), the exception propagates with `engine.context` still
set to the expression's scope: from current scope `0` and lexical scope
`1`, a throwing handler leaves the context at `1`, while a returning
handler gets the context restored to `0`. -/
theorem evaluate_scope_lost_on_handler_throw :
    evaluateHandlerStep ⟨0⟩ 1 (fun st => .error ("timeout", st))
      = .error ("timeout", (⟨1⟩ : EngineState))
    ∧ (⟨1⟩ : EngineState) ≠ (⟨0⟩ : EngineState)
    ∧ evaluateHandlerStep ⟨0⟩ 1 (fun st => .ok (.num 7, st))
      = .ok (.num 7, (⟨0⟩ : EngineState)) := by
  refine ⟨rfl, by decide, rfl⟩

/-- Claim C10: A `BoxedTensor` whose tensor form is materialised is a fixed
point of all three evaluation passes — `evaluate`, `simplify` and `N`
each return the receiver — and reports `isCanonical`, `isPure` and
`isValid` as `true`, whatever the expression-side fields and queries
are. -/
theorem boxedTensor_fixed_point :
    ∀ (td : MTensorData) (h : String) (ops : List BE)
      (ev sp nf : BE → BE) (pc pp pv : BE → Bool),
      (BoxedTensorM.mk (some td) h ops).evaluateT ev = .self
      ∧ (BoxedTensorM.mk (some td) h ops).simplifyT sp = .self
      ∧ (BoxedTensorM.mk (some td) h ops).nT nf = .self
      ∧ (BoxedTensorM.mk (some td) h ops).isCanonicalT pc = true
      ∧ (BoxedTensorM.mk (some td) h ops).isPureT pp = true
      ∧ (BoxedTensorM.mk (some td) h ops).isValidT pv = true := by
  intro td h ops ev sp nf pc pp pv
  exact ⟨rfl, rfl, rfl, rfl, rfl, rfl⟩

/-- Claim C5: Threading of a `threadable` head over operands of which at
least one is a finite indexable collection: the loop zips over the
longest collection length `L` (scalars broadcast, shorter collections
fall back to `Nothing` past their end), recursively evaluates the head on
each argument tuple, and wraps the results in a `List`; a single result
is returned bare and an empty iteration yields an empty `Sequence`. -/
theorem threadEvaluate_spec :
    ∀ (ev : String → List MExpr → MExpr) (H : String) (ops : List MExpr),
      ops.any isFiniteIndexableCollection = true →
      threadEvaluate ev H ops =
        (if (ops.map sizeM).foldl max 0 = 0 then .fn "Sequence" []
         else if (ops.map sizeM).foldl max 0 = 1 then ev H (threadArgs ops 1 0)
         else .fn "List" ((List.range ((ops.map sizeM).foldl max 0)).map
            (fun i => ev H (threadArgs ops ((ops.map sizeM).foldl max 0) i)))) := by
  intro ev H ops _
  simp only [threadEvaluate, List.length_map, List.length_range]
  by_cases h0 : (ops.map sizeM).foldl max 0 = 0
  · simp [h0]
  · by_cases h1 : (ops.map sizeM).foldl max 0 = 1
    · simp [h0, h1]
      rfl
    · simp [h0, h1]

/-- Claim C5 witness: The theorem at `Exp` over the two-element list
`[0, 1]` with a reconstructing evaluator: the result is the `List` of the
two evaluations. -/
theorem threadEvaluate_spec_witness :
    ([(.fn "List" [.num 0, .num 1] : MExpr)].any isFiniteIndexableCollection = true)
    ∧ threadEvaluate (fun h args => .fn h args) "Exp" [.fn "List" [.num 0, .num 1]]
        = .fn "List" [.fn "Exp" [.num 0], .fn "Exp" [.num 1]] := by
  refine ⟨by decide, ?_⟩
  rw [threadEvaluate_spec (fun h args => .fn h args) "Exp"
    [.fn "List" [.num 0, .num 1]] (by decide)]
  decide

/-- Claim C6: Cost-biased acceptance: for a candidate distinct from the old
expression, `cheapest` returns the candidate exactly when
`cost(new) ≤ 1.2 · cost(old)` under the supplied cost function (the
engine's configurable `ce.costFunction`), keeps the old expression
otherwise, and keeps the old expression when there is no candidate. -/
theorem cheapest_accepts_iff :
    ∀ (cost : MExpr → ℚ) (oldExpr newExpr : MExpr), oldExpr ≠ newExpr →
      (cheapest cost oldExpr (some newExpr) = newExpr
        ↔ cost newExpr ≤ 6 / 5 * cost oldExpr)
      ∧ (¬ cost newExpr ≤ 6 / 5 * cost oldExpr →
          cheapest cost oldExpr (some newExpr) = oldExpr)
      ∧ cheapest cost oldExpr none = oldExpr := by
  intro cost o n hne
  refine ⟨?_, ?_, rfl⟩
  · simp only [cheapest]
    rw [if_neg hne]
    split_ifs with hc
    · exact ⟨fun _ => hc, fun _ => rfl⟩
    · exact ⟨fun h => absurd h hne, fun h => absurd h hc⟩
  · intro hc
    simp only [cheapest]
    rw [if_neg hne, if_neg hc]

/-- Claim C6 witness: With the constant cost function `1`, a distinct
candidate satisfies `1 ≤ 6/5 · 1` and is accepted. -/
theorem cheapest_accepts_iff_witness :
    (MExpr.sym "a" ≠ MExpr.sym "b")
    ∧ cheapest (fun _ => 1) (.sym "a") (some (.sym "b")) = .sym "b" := by
  have hne : (MExpr.sym "a") ≠ .sym "b" := by decide
  exact ⟨hne, ((cheapest_accepts_iff (fun _ => 1) _ _ hne).1).mpr (by norm_num)⟩

/-- Claim C7: The canonical form of `Add`, for any commutative sort: the
literal-zero filter is what the function applies first (filtering is
idempotent, so pre-removing literal zeroes does not change the result);
a remaining pair of one non-zero real literal `a` and one imaginary
product `b·i` (in either order) collapses to the complex literal
`a + bi`; and a single remaining non-collection operand is unwrapped. -/
theorem canonicalAdd_spec :
    ∀ (sortAdd : List MExpr → List MExpr),
      (∀ ops, canonicalAdd sortAdd ops
          = canonicalAdd sortAdd
              (ops.filter (fun x => numericValueM x = none || !isZeroJS x)))
      ∧ (∀ qa qb : ℚ, qa ≠ 0 → qb ≠ 0 →
          canonicalAdd sortAdd
              [.num qa, .fn "Multiply" [.num qb, .sym "ImaginaryUnit"]]
            = .cnum qa qb
          ∧ canonicalAdd sortAdd
              [.fn "Multiply" [.num qb, .sym "ImaginaryUnit"], .num qa]
            = .cnum qa qb)
      ∧ (∀ x : MExpr, isIndexableCollection x = false →
          numericValueM x = none ∨ isZeroJS x = false →
          canonicalAdd sortAdd [x] = x) := by
  intro sortAdd
  refine ⟨?_, ?_, ?_⟩
  · intro ops
    simp [canonicalAdd, List.filter_filter, Bool.and_self]
  · intro qa qb ha hb
    constructor
    · simp [canonicalAdd, numericValueM, isZeroJS, asFloatM, getImaginaryCoef,
            isIndexableCollection, ha, hb]
    · simp [canonicalAdd, numericValueM, isZeroJS, asFloatM, getImaginaryCoef,
            isIndexableCollection, ha, hb]
  · intro x hcoll hz
    rcases hz with hz | hz
    · simp [canonicalAdd, hz, hcoll]
    · simp [canonicalAdd, hz, hcoll]

/-- Claim C7 witness: `2 + 3i` collapses to the complex literal, with the
identity sort. -/
theorem canonicalAdd_spec_witness :
    ((2 : ℚ) ≠ 0) ∧ ((3 : ℚ) ≠ 0)
    ∧ canonicalAdd id [.num 2, .fn "Multiply" [.num 3, .sym "ImaginaryUnit"]]
        = .cnum 2 3 := by
  refine ⟨by norm_num, by norm_num, ?_⟩
  exact ((canonicalAdd_spec id).2.1 2 3 (by norm_num) (by norm_num)).1

/-- Source `flattenOps` with the empty associative head (the value passed for
non-associative functions) is the identity. -/
theorem flattenOps_empty (xs : List MExpr) : flattenOps xs "" = xs := by
  simp [flattenOps]

/-- Indexed form of `List.flatMap`: mapping over a list is mapping over
its index range. -/
theorem flatMap_range_getD (xs : List MExpr) (g : MExpr → List MExpr) (d : MExpr) :
    xs.flatMap g = (List.range xs.length).flatMap (fun i => g (xs.getD i d)) := by
  induction xs with
  | nil => simp
  | cons a l ih =>
      simp only [List.flatMap_cons, List.length_cons, List.range_succ_eq_map,
        List.flatMap_map, List.getD_cons_zero, List.getD_cons_succ]
      rw [ih]

/-- The per-position processing the (amended) claim describes for
`holdMap`: a `Hold`-headed operand is kept, a `ReleaseHold`-headed
operand is stripped and processed, a held position is kept, an unheld
position is processed (`f` returning `none` drops the element). -/
def holdMapSpec (p : Hold) (f : MExpr → Option MExpr) (xs : List MExpr) : List MExpr :=
  (List.range xs.length).flatMap (fun i =>
    let xi := xs.getD i (.sym "Nothing")
    if headM xi = "Hold" then [xi]
    else if headM xi = "ReleaseHold" then (f (op1M xi)).toList
    else if shouldHold p (xs.length - 1) i then [xi]
    else (f xi).toList)

/-- Source `holdMap` realises the per-position description for every indexed
policy (not `all`, not `none`). -/
theorem holdMap_indexed (p : Hold) (hp1 : p ≠ Hold.all) (hp2 : p ≠ Hold.none)
    (a : MExpr) (l : List MExpr) (f : MExpr → Option MExpr) :
    holdMap (a :: l) p "" f = holdMapSpec p f (a :: l) := by
  simp only [holdMap, flattenOps_empty]
  rw [if_neg hp1, if_neg hp2]
  simp only [holdMapSpec, List.getD_eq_getElem?_getD]
  apply congrArg
  funext i
  by_cases hH : headM ((a :: l)[i]?.getD (MExpr.sym "Nothing")) = "Hold"
  · simp [hH]
  · by_cases hR : headM ((a :: l)[i]?.getD (MExpr.sym "Nothing")) = "ReleaseHold"
    · cases hfo : f (op1M ((a :: l)[i]?.getD (MExpr.sym "Nothing"))) <;>
        simp [hH, hR, hfo]
    · cases hsh : shouldHold p l.length i <;>
        cases hfx : f ((a :: l)[i]?.getD (MExpr.sym "Nothing")) <;>
          simp [hH, hR, hsh, hfx]

/-- The `none` fast path of `holdMap` also realises the per-position
description. -/
theorem holdMap_none_case (a : MExpr) (l : List MExpr) (f : MExpr → Option MExpr) :
    holdMap (a :: l) Hold.none "" f = holdMapSpec Hold.none f (a :: l) := by
  simp only [holdMap, flattenOps_empty, if_true, if_false]
  rw [flatMap_range_getD (a :: l) _ (.sym "Nothing")]
  simp only [holdMapSpec, List.getD_eq_getElem?_getD, List.flatMap]
  refine congrArg List.flatten
    (congrArg (fun g => List.map g (List.range (a :: l).length)) ?_)
  funext i
  by_cases hH : headM ((a :: l)[i]?.getD (MExpr.sym "Nothing")) = "Hold"
  · simp [hH]
  · by_cases hR : headM ((a :: l)[i]?.getD (MExpr.sym "Nothing")) = "ReleaseHold"
    · cases hfo : f (op1M ((a :: l)[i]?.getD (MExpr.sym "Nothing"))) <;>
        simp [hH, hR, hfo]
    · cases hfx : f ((a :: l)[i]?.getD (MExpr.sym "Nothing")) <;>
        simp [hH, hR, hfx, shouldHold]

/-- Claim C4 amended: Hold-policy processing, as the code implements it:

* `shouldHold` holds exactly the positions of the claim's table (`all`:
  every position, `none`: none, `first`: position 0, `rest`: positions
  1..n−1, `last`: position n−1, `most`: positions 0..n−2);
* under the policy `all`, `holdMap` returns the flattened operand list
  untouched — `Hold`/`ReleaseHold` operands included, contrary to the
  unamended claim;
* under every other policy `holdMap` processes exactly the unheld
  positions, always keeps a `Hold`-headed operand unprocessed, and always
  strips and processes a `ReleaseHold`-headed operand;
* the operand loop of `makeCanonicalFunction` canonicalises exactly the
  unheld positions and replaces a `ReleaseHold` child by its canonicalised
  first operand only at *held* positions (at unheld positions the child is
  canonicalised with its wrapper intact, contrary to the unamended
  claim). -/
theorem holdMap_shouldHold_amended :
    (∀ n i : ℕ,
      shouldHold Hold.all (n - 1) i = true
      ∧ shouldHold Hold.none (n - 1) i = false
      ∧ (shouldHold Hold.first (n - 1) i = true ↔ i = 0)
      ∧ (shouldHold Hold.rest (n - 1) i = true ↔ i ≠ 0)
      ∧ (shouldHold Hold.last (n - 1) i = true ↔ i = n - 1)
      ∧ (shouldHold Hold.most (n - 1) i = true ↔ i ≠ n - 1))
    ∧ (∀ (xs : List MExpr) (h : String) (f : MExpr → Option MExpr),
        holdMap xs Hold.all h f = flattenOps xs h)
    ∧ (∀ p : Hold, p ≠ Hold.all →
        ∀ (xs : List MExpr) (f : MExpr → Option MExpr),
          holdMap xs p "" f = holdMapSpec p f xs)
    ∧ (∀ (boxC : MExpr → MExpr) (hold : Hold) (ops : List MExpr),
        canonicalOperandsLoop boxC hold ops
          = (List.range ops.length).map (fun i =>
              let op := ops.getD i (.sym "Nothing")
              if shouldHold hold (ops.length - 1) i then
                (if headM op = "ReleaseHold" then boxC (op1M op) else op)
              else boxC op)) := by
  refine ⟨?_, ?_, ?_, ?_⟩
  · intro n i
    refine ⟨rfl, rfl, ?_, ?_, ?_, ?_⟩ <;> simp [shouldHold]
  · intro xs h f
    cases xs with
    | nil => simp [holdMap, flattenOps]
    | cons a l => simp [holdMap]
  · intro p hp xs f
    cases xs with
    | nil => simp [holdMap, holdMapSpec]
    | cons a l =>
        by_cases hn : p = Hold.none
        · subst hn
          exact holdMap_none_case a l f
        · exact holdMap_indexed p hp hn a l f
  · intro boxC hold ops
    simp only [canonicalOperandsLoop]
    refine congrArg (fun g => List.map g (List.range ops.length)) ?_
    funext i
    cases hsh : shouldHold hold (ops.length - 1) i <;> simp [hsh]

/-- Claim C4 amended witness: The characterisation at policy `rest` on a
`ReleaseHold` operand followed by a plain symbol: the wrapper is stripped
and its operand processed (position 0 is not held under `rest`), and the
held position 1 is kept. -/
theorem holdMap_shouldHold_amended_witness :
    (Hold.rest ≠ Hold.all)
    ∧ holdMap [.fn "ReleaseHold" [.sym "a"], .sym "c"] Hold.rest ""
        (fun x => some (.fn "F" [x]))
      = holdMapSpec Hold.rest (fun x => some (.fn "F" [x]))
          [.fn "ReleaseHold" [.sym "a"], .sym "c"]
    ∧ holdMapSpec Hold.rest (fun x => some (.fn "F" [x]))
        [.fn "ReleaseHold" [.sym "a"], .sym "c"]
      = [.fn "F" [.sym "a"], .sym "c"] := by
  refine ⟨by decide, ?_, by decide⟩
  exact holdMap_shouldHold_amended.2.2.1 Hold.rest (by decide)
    [.fn "ReleaseHold" [.sym "a"], .sym "c"] (fun x => some (.fn "F" [x]))

/-- Claim C3 amended: The canonicalisation rules of `Power`, as
`canonicalPower` implements them:

1. exponent zero gives `1`, for every base;
2. exponent one gives the base back, for every base;
3. base one: `Power(1, e)` canonicalises to the number `1` exactly when
   `e` carries a numeric value (or is the trivial `0`/`1`/`−1`); for
   `e = ComplexInfinity` the result is `NaN`, and for every other
   non-numeric exponent the `Power` node is returned unchanged — the
   unamended "for every exponent expression e" is false;
4. base zero with a non-trivial numeric exponent gives `0` for positive
   exponents and `ComplexInfinity` for negative ones (the exponent `−1`
   routes through the reciprocal builder `ce.inv` instead);
5. `b^(1/2)` is recognised as `Sqrt(b)` for positive square-free integer
   literals `b` (perfect-square factors are otherwise extracted);
6. `(x^a)^b` with real `x` and integer literals `a`, `b` rewrites through
   `ce.pow` to `x^(a·b)`;
7. an integer exponent distributes over `Multiply`. -/
theorem canonicalPower_rules_amended :
    (∀ b : MExpr, canonicalPower b (.num 0) = .num 1)
    ∧ (∀ b : MExpr, canonicalPower b (.num 1) = b)
    ∧ (∀ e : MExpr, canonicalPower (.num 1) e =
        (if symbolM e = some "ComplexInfinity" then .nanE
         else if (numericValueM e).isSome then .num 1
         else .fn "Power" [.num 1, e]))
    ∧ (∀ q : ℚ, q ≠ 0 → q ≠ 1 → q ≠ -1 →
        (0 < q → canonicalPower (.num 0) (.num q) = .num 0)
        ∧ (q < 0 → canonicalPower (.num 0) (.num q) = .sym "ComplexInfinity"))
    ∧ (∀ n : ℕ, 1 < n → factorPower n 2 = (1, n) →
        canonicalPower (.num (n : ℚ)) (.num (1 / 2)) = .fn "Sqrt" [.num (n : ℚ)])
    ∧ (∀ (x : MExpr) (a b : ℤ), isRealJS x = true → b ≠ 0 → b ≠ 1 → b ≠ -1 →
        canonicalPower (.fn "Power" [x, .num (a : ℚ)]) (.num (b : ℚ))
          = mpow x (.num ((a * b : ℤ) : ℚ)))
    ∧ (∀ (ops : List MExpr) (n : ℤ), n ≠ 0 → n ≠ 1 → n ≠ -1 →
        canonicalPower (.fn "Multiply" ops) (.num (n : ℚ))
          = .fn "Multiply" (ops.map (fun x => mpow x (.num (n : ℚ))))) := by
  refine ⟨?_, ?_, ?_, ?_, ?_, ?_, ?_⟩
  · intro b
    rw [canonicalPower]
    simp [symbolM, isZeroJS, ceOne]
  · intro b
    rw [canonicalPower]
    norm_num [symbolM, isZeroJS, isOneJS]
    intro hcon
    exact Option.noConfusion hcon
  · intro e
    cases e with
    | num q =>
        rw [canonicalPower]
        by_cases h0 : q = 0
        · simp [symbolM, isZeroJS, isOneJS, isNegOneJS, numericValueM, h0, ceOne]
        · by_cases h1 : q = 1
          · simp [symbolM, isZeroJS, isOneJS, isNegOneJS, numericValueM, h0, h1]
          · by_cases hm : q = -1
            · simp [symbolM, isZeroJS, isOneJS, isNegOneJS, numericValueM,
                    h0, h1, hm, minv, ceOne]
            · simp [symbolM, isZeroJS, isOneJS, isNegOneJS, numericValueM,
                    h0, h1, hm, canonicalPowerNumeric, asFloatM, ceOne]
    | cnum re im =>
        rw [canonicalPower]
        by_cases h0 : isZeroJS (.cnum re im) = true
        · simp [symbolM, h0, ceOne, numericValueM]
        · simp [symbolM, h0, isOneJS, isNegOneJS, numericValueM,
                canonicalPowerNumeric, asFloatM, ceOne]
    | nanE =>
        rw [canonicalPower]
        simp [symbolM, isZeroJS, isOneJS, isNegOneJS, numericValueM,
              canonicalPowerNumeric, asFloatM, ceOne]
    | sym s =>
        rw [canonicalPower]
        by_cases hs : s = "ComplexInfinity"
        · simp [symbolM, hs, ceNaN]
        · simp [symbolM, hs, isZeroJS, isOneJS, isNegOneJS, numericValueM,
                canonicalPowerNumeric, canonicalPowerTail]
    | fn h ops =>
        rw [canonicalPower]
        simp [symbolM, isZeroJS, isOneJS, isNegOneJS, numericValueM,
              canonicalPowerNumeric, canonicalPowerTail]
  · intro q h0 h1 hm
    constructor
    · intro hpos
      rw [canonicalPower]
      norm_num [symbolM, isZeroJS, isOneJS, isNegOneJS, h0, h1, hm,
        canonicalPowerNumeric, numericValueM, asFloatM, isPositiveJS, hpos, ceZero]
      intro hcon
      exact Option.noConfusion hcon
    · intro hneg
      have hnp : ¬ (0 < q) := not_lt.mpr hneg.le
      rw [canonicalPower]
      norm_num [symbolM, isZeroJS, isOneJS, isNegOneJS, h0, h1, hm,
        canonicalPowerNumeric, numericValueM, asFloatM, isPositiveJS, isNegativeJS,
        hneg, hnp, ceComplexInfinity]
      intro hcon
      exact Option.noConfusion hcon
  · intro n hn hfp
    have hne1 : (n : ℚ) ≠ 1 := by
      exact_mod_cast (by omega : (n : ℕ) ≠ 1)
    have hne0 : (n : ℚ) ≠ 0 := by
      exact_mod_cast (by omega : (n : ℕ) ≠ 0)
    rw [canonicalPower]
    norm_num [symbolM, isZeroJS, isOneJS, isNegOneJS, canonicalPowerNumeric,
      numericValueM, asFloatM, hne0, hne1, sqrtCase, asSmallIntegerM,
      Rat.den_natCast, Rat.num_natCast, hfp, (by omega : 0 < n),
      (by omega : n ≠ 1), ceHalf]
    rw [if_neg (by simp), if_neg (by omega : ¬ (n = 1))]
  · intro x a b hreal hb0 hb1 hbm
    have hc0 : (b : ℚ) ≠ 0 := by exact_mod_cast hb0
    have hc1 : (b : ℚ) ≠ 1 := by exact_mod_cast hb1
    have hcm : (b : ℚ) ≠ -1 := by
      intro hcon
      exact hbm (by exact_mod_cast hcon)
    rw [canonicalPower]
    rw [if_neg (by simp [symbolM]), if_neg (by simp [isZeroJS, hc0]),
        if_neg (by simp [isOneJS, hc1]), if_neg (by simp [isNegOneJS, hcm])]
    rw [show canonicalPowerNumeric (.fn "Power" [x, .num (a : ℚ)]) (.num (b : ℚ))
          = none from by simp [canonicalPowerNumeric, numericValueM]]
    rw [canonicalPowerTail]
    simp [hreal, asSmallIntegerM, Rat.den_intCast, Rat.num_intCast, mul_comm]
  · intro ops n h0 h1 hm
    have hc0 : (n : ℚ) ≠ 0 := by exact_mod_cast h0
    have hc1 : (n : ℚ) ≠ 1 := by exact_mod_cast h1
    have hcm : (n : ℚ) ≠ -1 := by
      intro hcon
      exact hm (by exact_mod_cast hcon)
    rw [canonicalPower]
    rw [if_neg (by simp [symbolM]), if_neg (by simp [isZeroJS, hc0]),
        if_neg (by simp [isOneJS, hc1]), if_neg (by simp [isNegOneJS, hcm])]
    rw [show canonicalPowerNumeric (.fn "Multiply" ops) (.num (n : ℚ))
          = none from by simp [canonicalPowerNumeric, numericValueM]]
    rw [canonicalPowerTail]
    simp [asSmallIntegerM, Rat.den_intCast, List.attach_map_coe]

/-- Claim C3 amended witness: The amended rules at concrete inputs:
`0^3 = 0`, `0^(−3) = ComplexInfinity`, `3^(1/2) = √3` (3 is square-free),
`(5^3)^2 = ce.pow(5, 6)` and `(a·b)^3 = a^3 · b^3`. -/
theorem canonicalPower_rules_amended_witness :
    canonicalPower (.num 0) (.num 3) = .num 0
    ∧ canonicalPower (.num 0) (.num (-3)) = .sym "ComplexInfinity"
    ∧ factorPower 3 2 = (1, 3)
    ∧ canonicalPower (.num ((3 : ℕ) : ℚ)) (.num (1 / 2))
        = .fn "Sqrt" [.num ((3 : ℕ) : ℚ)]
    ∧ canonicalPower (.fn "Power" [.num 5, .num ((3 : ℤ) : ℚ)]) (.num ((2 : ℤ) : ℚ))
        = mpow (.num 5) (.num ((3 * 2 : ℤ) : ℚ))
    ∧ canonicalPower (.fn "Multiply" [.sym "a", .sym "b"]) (.num ((3 : ℤ) : ℚ))
        = .fn "Multiply" [mpow (.sym "a") (.num ((3 : ℤ) : ℚ)),
                          mpow (.sym "b") (.num ((3 : ℤ) : ℚ))] := by
  refine ⟨?_, ?_, by decide, ?_, ?_, ?_⟩
  · exact (canonicalPower_rules_amended.2.2.2.1 3 (by norm_num) (by norm_num)
      (by norm_num)).1 (by norm_num)
  · exact (canonicalPower_rules_amended.2.2.2.1 (-3) (by norm_num) (by norm_num)
      (by norm_num)).2 (by norm_num)
  · exact canonicalPower_rules_amended.2.2.2.2.1 3 (by norm_num) (by decide)
  · exact canonicalPower_rules_amended.2.2.2.2.2.1 (.num 5) 3 2 rfl (by decide)
      (by decide) (by decide)
  · have hmap := canonicalPower_rules_amended.2.2.2.2.2.2 [.sym "a", .sym "b"] 3
      (by decide) (by decide) (by decide)
    simpa using hmap

end CE
